import Mathlib

/-!
Verification of the ProjectGutenberg text-analysis program
(`src/project_gutenberg.py`) against its natural-language specification.

Strings are embedded as `List Char` (Python strings are sequences of
code points; this corpus is ASCII plus two curly-quote glyphs).  Python
library primitives (`str.find`, slicing, `str.replace`, `str.split`,
tuple comparison, dict operations) are given explicit executable
definitions mirroring Python semantics, and each method of the
`ProjectGutenberg` class that the claims touch is translated into a
Lean function over those primitives.
-/

/-- Strings are modelled as lists of characters. -/
abbrev StrC := List Char

/-- Python whitespace predicate used by `str.split()` (the corpus only
contains spaces, the newlines having been replaced by spaces while the
file was read). -/
def pyIsSpaceB (c : Char) : Bool :=
  c = ' ' || c = '\t' || c = '\n' || c = '\r'

/-- Helper for `pySplitWs`: accumulates the current token (reversed). -/
def pySplitWsAux : StrC → StrC → List StrC
  | [], acc => if acc.isEmpty then [] else [acc.reverse]
  | c :: rest, acc =>
    if pyIsSpaceB c then
      if acc.isEmpty then pySplitWsAux rest []
      else acc.reverse :: pySplitWsAux rest []
    else pySplitWsAux rest (c :: acc)

/-- Python `s.split()`: maximal runs of non-whitespace characters; no
empty tokens are produced. -/
def pySplitWs (s : StrC) : List StrC := pySplitWsAux s []

/-- Python `c.islower()` for a single character (ASCII range, which is
all the corpus contains after normalization). -/
def pyIsLowerB (c : Char) : Bool := 'a' ≤ c && c ≤ 'z'

/-- Python `c.upper()` for a single character: uncased characters
(digits, apostrophes, hyphens, ...) are returned unchanged. -/
def pyUpperChar (c : Char) : Char :=
  if 'a' ≤ c && c ≤ 'z' then Char.ofNat (c.toNat - 32) else c

/-- Python `c.lower()` for a single character. -/
def pyLowerChar (c : Char) : Char :=
  if 'A' ≤ c && c ≤ 'Z' then Char.ofNat (c.toNat + 32) else c

/-- Helper for `pyFind`: scans `s` position by position. -/
def pyFindAux (pat : StrC) : StrC → Nat → Int
  | [], i => if pat.isPrefixOf ([] : StrC) then (i : Int) else -1
  | c :: rest, i =>
    if pat.isPrefixOf (c :: rest) then (i : Int) else pyFindAux pat rest (i + 1)

/-- Python `s.find(pat)`: index of the first occurrence of `pat` in
`s`, or `-1` when there is none. -/
def pyFind (s pat : StrC) : Int := pyFindAux pat s 0

/-- Normalization of a Python slice endpoint: negative indices count
from the end of the string and everything is clamped into `[0, len]`. -/
def pyIdx (len : Nat) (x : Int) : Nat :=
  if x < 0 then ((len : Int) + x).toNat else min x.toNat len

/-- Python `s[a:b]` (step 1). -/
def pySlice (s : StrC) (a b : Int) : StrC :=
  (s.take (pyIdx s.length b)).drop (pyIdx s.length a)

/-- Python `s[a:]`. -/
def pySliceGe (s : StrC) (a : Int) : StrC :=
  s.drop (pyIdx s.length a)

/-- Fuelled worker for `pyReplace`; the fuel is the length of the
subject string, which bounds the number of scanning steps. -/
def pyReplaceAux (pat rep : StrC) : Nat → StrC → StrC
  | _, [] => []
  | 0, s => s
  | Nat.succ fuel, s@(c :: rest) =>
    if pat.isPrefixOf s then rep ++ pyReplaceAux pat rep fuel (s.drop pat.length)
    else c :: pyReplaceAux pat rep fuel rest

/-- Python `s.replace(pat, rep)` for a non-empty pattern: every
non-overlapping occurrence, scanning left to right, is replaced. -/
def pyReplace (s pat rep : StrC) : StrC :=
  if pat.isEmpty then s else pyReplaceAux pat rep s.length s

/-- A Python `dict` from token to count: an association list in
insertion order with pairwise-distinct keys (the dict guarantees key
uniqueness; the operations below preserve it). -/
abbrev FreqTable := List (StrC × Nat)

/-- Python `key in d`. -/
def dContains (d : FreqTable) (k : StrC) : Bool :=
  d.any (fun p => p.1 = k)

/-- Python `d[key]` (0 when absent; every use site guards with
`dContains` exactly where the Python guards with `in`). -/
def dGet (d : FreqTable) (k : StrC) : Nat :=
  match d.find? (fun p => p.1 = k) with
  | some p => p.2
  | none => 0

/-- Python `d.pop(key)`: removes the entry for `k`. -/
def dRemove (d : FreqTable) (k : StrC) : FreqTable :=
  match d with
  | [] => []
  | p :: rest => if p.1 = k then rest else p :: dRemove rest k

/-- Python `d[key] = v`: updates in place when the key is present,
otherwise appends the new entry at the end (dict insertion order). -/
def dSet (d : FreqTable) (k : StrC) (v : Nat) : FreqTable :=
  match d with
  | [] => [(k, v)]
  | p :: rest => if p.1 = k then (k, v) :: rest else p :: dSet rest k v

/-- Python `list(d)`: the keys in insertion order. -/
def dKeys (d : FreqTable) : List StrC := d.map Prod.fst

/-- One step of `collections.Counter`: bump an existing entry or append
a new one with count 1. -/
def counterAdd (d : FreqTable) (t : StrC) : FreqTable :=
  if dContains d t then dSet d t (dGet d t + 1) else d ++ [(t, 1)]

/-- `dict(collections.Counter(tokens))`: counts in first-encounter
order. -/
def counter (ts : List StrC) : FreqTable := ts.foldl counterAdd []

/-- The body of the first reconciliation loop of `populate_freqs`
(source lines 123-131), for one word of the key snapshot: compute the
lowercase-first and capitalized-first spellings; when both are present
the capitalized entry is merged into the lowercase one
(`self.freqs[word] += self.freqs.pop(capitalized_word)`). -/
def pass1Step (d : FreqTable) (word : StrC) : FreqTable :=
  match word with
  | [] => d
  | c :: rest =>
    let w := if pyIsLowerB c then c :: rest else pyLowerChar c :: rest
    let cap := if pyIsLowerB c then pyUpperChar c :: rest else c :: rest
    if dContains d w && dContains d cap then
      let v1 := dGet d w
      let v2 := dGet d cap
      dSet (dRemove d cap) w (v1 + v2)
    else d

/-- The body of the second reconciliation loop of `populate_freqs`
(source lines 134-153), for one word of the key snapshot: an all-caps
word of length at least 2 is merged into its capitalized spelling when
that exists, else into its all-lowercase spelling when that exists
(`self.freqs[target] += self.freqs.pop(word)`). -/
def pass2Step (d : FreqTable) (word : StrC) : FreqTable :=
  if word.length = 1 then d
  else if word.all (fun c => !pyIsLowerB c) then
    let allLower := word.map pyLowerChar
    let cap :=
      match allLower with
      | [] => []
      | c :: rest => pyUpperChar c :: rest
    if dContains d cap then
      dSet (dRemove d word) cap (dGet d cap + dGet d word)
    else if dContains d allLower then
      dSet (dRemove d word) allLower (dGet d allLower + dGet d word)
    else d
  else d

/-- The two-pass case reconciliation of `populate_freqs`: each pass
iterates over a snapshot of the keys (`for word in list(self.freqs)`)
taken when the pass starts. -/
def reconcile (d : FreqTable) : FreqTable :=
  let d1 := (dKeys d).foldl pass1Step d
  (dKeys d1).foldl pass2Step d1

/-- `ProjectGutenberg.populate_freqs`: whitespace-split the
apostrophes-only view, count with `Counter`, then reconcile case
variants. -/
def populate_freqs (apostrophesOnly : StrC) : FreqTable :=
  reconcile (counter (pySplitWs apostrophesOnly))

/-- Total of all counts in a table. -/
def tableTotal (d : FreqTable) : Nat := (d.map Prod.snd).sum

/-- Python string `<=` (lexicographic by code point), as a Boolean. -/
def pyStrLeB : StrC → StrC → Bool
  | [], _ => true
  | _ :: _, [] => false
  | a :: as, b :: bs => if a < b then true else if b < a then false else pyStrLeB as bs

/-- Ascending order of the Python tuples `(freq, word)` put on the min
heap of `get_20_least_frequent_words`: count ascending, then token
ascending lexically.  Table entries are `(word, freq)` pairs. -/
def bottomLe (p q : StrC × Nat) : Prop :=
  p.2 < q.2 ∨ (p.2 = q.2 ∧ pyStrLeB p.1 q.1 = true)

/-- Ascending order of the Python tuples `(-freq, word)` put on the max
heap of `get_20_most_frequent_words`: count descending, then token
ascending lexically. -/
def topLe (p q : StrC × Nat) : Prop :=
  q.2 < p.2 ∨ (p.2 = q.2 ∧ pyStrLeB p.1 q.1 = true)

instance : DecidableRel bottomLe := fun _ _ => by unfold bottomLe; infer_instance

instance : DecidableRel topLe := fun _ _ => by unfold topLe; infer_instance

/-- Python `pat in s` on strings: contiguous substring test. -/
def pySubstrB (pat : StrC) : StrC → Bool
  | [] => pat.isEmpty
  | s@(_ :: rest) => if pat.isPrefixOf s then true else pySubstrB pat rest

/-- The source condition `'Mrs' in w or 'Mr' in w or 'Esq' in w`. -/
def hasHonorificB (w : StrC) : Bool :=
  pySubstrB ("Mrs".toList) w || pySubstrB ("Mr".toList) w || pySubstrB ("Esq".toList) w

/-- The honorific-period restoration loop shared by the three ranking
operations (source lines 172-175, 197-199 and 222-224): a returned
token containing `Mrs`, `Mr` or `Esq` gets a literal `.` appended. -/
def appendHonorificDots : List (StrC × Nat) → List (StrC × Nat)
  | [] => []
  | (w, n) :: rest =>
    (if hasHonorificB w then w ++ ".".toList else w, n) :: appendHonorificDots rest

/-- `get_20_most_frequent_words` generalized to an arbitrary `k` (the
source fixes `k = 20` with `for i in range(20)`): popping the max heap
of `(-freq, word)` tuples yields the entries in `topLe` order, the
first `k` are taken (fewer when the heap empties first), then the
honorific pass runs. -/
def getKMostFrequentWords (freqs : FreqTable) (k : Nat) : List (StrC × Nat) :=
  appendHonorificDots ((List.insertionSort topLe freqs).take k)

/-- `ProjectGutenberg.get_20_most_frequent_words`. -/
def get_20_most_frequent_words (freqs : FreqTable) : List (StrC × Nat) :=
  getKMostFrequentWords freqs 20

/-- `get_20_most_interesting_frequent_words` generalized to arbitrary
`k`: entries are consumed in `topLe` order and a token is skipped (not
counted toward `k`) when it or its all-uppercase rendering is in the
parsed common-word list. -/
def getKInterestingWords (freqs : FreqTable) (common : List StrC) (k : Nat) :
    List (StrC × Nat) :=
  appendHonorificDots
    (((List.insertionSort topLe freqs).filter
      (fun p => !common.contains p.1 && !common.contains (p.1.map pyUpperChar))).take k)

/-- `ProjectGutenberg.get_20_most_interesting_frequent_words`. -/
def get_20_most_interesting_frequent_words (freqs : FreqTable) (common : List StrC) :
    List (StrC × Nat) :=
  getKInterestingWords freqs common 20

/-- The selection stage of `get_20_least_frequent_words` generalized to
arbitrary `k`: popping the min heap of `(freq, word)` tuples yields the
entries in `bottomLe` order; entries whose token is in the
chapter-number exclusion list are skipped without counting toward `k`. -/
def getKLeastSelect (freqs : FreqTable) (excluded : List StrC) (k : Nat) :
    List (StrC × Nat) :=
  ((List.insertionSort bottomLe freqs).filter (fun p => !excluded.contains p.1)).take k

/-- `get_20_least_frequent_words` generalized to arbitrary `k`:
selection followed by the honorific pass. -/
def getKLeastFrequentWords (freqs : FreqTable) (excluded : List StrC) (k : Nat) :
    List (StrC × Nat) :=
  appendHonorificDots (getKLeastSelect freqs excluded k)

/-- `ProjectGutenberg.get_20_least_frequent_words`. -/
def get_20_least_frequent_words (freqs : FreqTable) (excluded : List StrC) :
    List (StrC × Nat) :=
  getKLeastFrequentWords freqs excluded 20

/-- `self.chapter_numbers_list = [str(i) for i in range(1, self.chapters)]`. -/
def chapterNumbersList (chapters : Nat) : List StrC :=
  (List.range' 1 (chapters - 1)).map (fun i => (toString i).toList)

/-- Python exceptions that the modelled fragments could raise. -/
inductive PyError where
  | invalidRangeError : PyError
  | stopIteration : PyError
  | indexError : PyError
deriving DecidableEq, Repr

/-- Observable outcome of `parse_common_words_txt_file`: a normal
return that prints an error message and leaves the stop-word list
unchanged, a normal return with the parsed list, or a raised
exception. -/
inductive ParseCommonOutcome where
  | errorPrinted : ParseCommonOutcome
  | parsed : List StrC → ParseCommonOutcome
  | raised : PyError → ParseCommonOutcome
deriving DecidableEq, Repr

/-- `ProjectGutenberg.parse_common_words_txt_file(n)` over the word
list held by the common-words file (one word per line): out-of-range
`n` prints an error and returns without touching state; otherwise the
list comprehension `[next(f) ... for i in range(n)]` takes the first
`n` words, raising `StopIteration` if the file is too short. -/
def parse_common_words_txt_file (n : Int) (fileWords : List StrC) : ParseCommonOutcome :=
  if ¬ (n ≥ 0 ∧ n ≤ 1000) then ParseCommonOutcome.errorPrinted
  else if n.toNat ≤ fileWords.length then ParseCommonOutcome.parsed (fileWords.take n.toNat)
  else ParseCommonOutcome.raised PyError.stopIteration

/-- The literal marker `'Chapter ' + str(i)`. -/
def chapterMarker (i : Nat) : StrC := "Chapter ".toList ++ (toString i).toList

/-- The stop marker used for the last chapter by
`get_frequency_of_word` (this marker never occurs in the parsed body:
`parse_book_txt_file` stops reading immediately before it). -/
def endMarker : StrC := "End of the Project Gutenberg EBook".toList

/-- The chapter slice computed by `get_frequency_of_word` for chapter
`i`: `book[find('Chapter i') : find(stop)]` where `stop` is
`'Chapter i+1'`, or the end-of-text marker for the last chapter. -/
def freqChapterSlice (body : StrC) (chapters i : Nat) : StrC :=
  let stop := if i = chapters then endMarker else chapterMarker (i + 1)
  pySlice body (pyFind body (chapterMarker i)) (pyFind body stop)

/-- `ProjectGutenberg.get_frequency_of_word`: for each chapter,
whitespace-split its slice of the apostrophes-only view and count
exact case-sensitive matches of `word`. -/
def get_frequency_of_word (body : StrC) (chapters : Nat) (word : StrC) : List Nat :=
  (List.range' 1 chapters).map
    (fun i => (pySplitWs (freqChapterSlice body chapters i)).count word)

/-- The chapter slice computed by `get_chapter_quote_appears` for
chapter `i`: the last chapter runs to the end of the text
(`book[start:]`), earlier ones to `find('Chapter i+1')`. -/
def quoteChapterSlice (body : StrC) (chapters i : Nat) : StrC :=
  let s := pyFind body (chapterMarker i)
  if i = chapters then pySliceGe body s
  else pySlice body s (pyFind body (chapterMarker (i + 1)))

/-- `ProjectGutenberg.get_chapter_quote_appears`: scans chapters
`1..chapters` in order and returns the first whose slice of the
punctuation-preserving view contains `quote` as a substring, else the
sentinel `-1`. -/
def get_chapter_quote_appears (body : StrC) (chapters : Nat) (quote : StrC) : Int :=
  match (List.range' 1 chapters).find?
      (fun i => pySubstrB quote (quoteChapterSlice body chapters i)) with
  | some i => (i : Int)
  | none => -1

/-- Start of chapter `i`'s span in the punctuation-preserving view,
as a clamped index into the body. -/
def quoteSpanStart (body : StrC) (i : Nat) : Nat :=
  pyIdx body.length (pyFind body (chapterMarker i))

/-- End of chapter `i`'s span: the end of the text for the last
chapter, else the position of the next chapter marker. -/
def quoteSpanEnd (body : StrC) (chapters i : Nat) : Nat :=
  if i = chapters then body.length
  else pyIdx body.length (pyFind body (chapterMarker (i + 1)))

/-- Worker for `splitSentences`: `prev` is the character at the
previous position of the original string (the lookbehind examines the
string itself, also when the previous character was a consumed
separator), `acc` the current chunk reversed. -/
def splitSentencesAux : StrC → Char → StrC → List StrC
  | [], _, acc => [acc.reverse]
  | c :: rest, prev, acc =>
    if (prev = '.' || prev = '!' || prev = '?') && c ≠ '\n' then
      acc.reverse :: splitSentencesAux rest c []
    else splitSentencesAux rest c (c :: acc)

/-- `re.split('(?<=[.!?]).', text)`: the pattern matches any single
character other than a newline that is immediately preceded by `.`,
`!` or `?`; each match is a separator and is removed.  The first
character of the text can never match (the lookbehind needs a
preceding character). -/
def splitSentences : StrC → List StrC
  | [] => [[]]
  | c :: rest => splitSentencesAux rest c [c]

/-- Modelled from the spec: the `trie` module (`from trie import *`)
is not among the repository sources.  Per §4.5 and the data model, a
`TrieNode` owns a mapping from next character to child node plus the
full sentences terminating at that node; the root represents the empty
prefix. -/
inductive Trie where
  | node : List StrC → List (Char × Trie) → Trie

/-- The empty trie. -/
def Trie.empty : Trie := Trie.node [] []

/-- Look a child edge up in a node's child list. -/
def trieChildGet : List (Char × Trie) → Char → Option Trie
  | [], _ => none
  | (c, t) :: rest, a => if c = a then some t else trieChildGet rest a

/-- Replace the child for an existing edge, or append a new edge. -/
def trieChildSet : List (Char × Trie) → Char → Trie → List (Char × Trie)
  | [], a, t => [(a, t)]
  | (c, u) :: rest, a, t =>
    if c = a then (a, t) :: rest else (c, u) :: trieChildSet rest a t

/-- Modelled from the spec: `Trie.insert` walks the sentence character
by character, creating missing edges, and stores the full sentence at
the terminal node. -/
def Trie.insert : Trie → StrC → StrC → Trie
  | Trie.node ends children, [], full => Trie.node (ends ++ [full]) children
  | Trie.node ends children, c :: cs, full =>
    let child :=
      match trieChildGet children c with
      | some t => t
      | none => Trie.empty
    Trie.node ends (trieChildSet children c (child.insert cs full))

/-- Walk the trie along a query string, failing on a missing edge. -/
def Trie.walk : Trie → StrC → Option Trie
  | t, [] => some t
  | Trie.node _ children, c :: cs =>
    match trieChildGet children c with
    | some t => t.walk cs
    | none => none

mutual

/-- All sentences stored in the subtree rooted at a node. -/
def Trie.collect : Trie → List StrC
  | Trie.node ends children => ends ++ trieCollectChildren children

/-- All sentences stored under a list of child edges. -/
def trieCollectChildren : List (Char × Trie) → List StrC
  | [] => []
  | (_, t) :: rest => t.collect ++ trieCollectChildren rest

end

/-- Modelled from the spec:
`Trie.get_autocomplete_sentences_helper` walks the query and collects
every sentence in the subtree at the node reached, or returns the
empty sequence when the walk fails. -/
def Trie.autocompleteHelper (t : Trie) (q : StrC) : List StrC :=
  match t.walk q with
  | some n => n.collect
  | none => []

/-- The construction-time masking of `get_autocomplete_sentences`
(source line 329): `Mrs.` then `Mr.` then `Esq.` are replaced by
sentinels containing no sentence-terminal punctuation. -/
def maskHonorifics (s : StrC) : StrC :=
  pyReplace (pyReplace (pyReplace s ("Mrs.".toList) ("$MRS$".toList))
    ("Mr.".toList) ("$MR$".toList)) ("Esq.".toList) ("$ESQ$".toList)

/-- The unmasking applied to each returned sentence (source lines
352-358). -/
def unmaskSentence (s : StrC) : StrC :=
  let a := if pySubstrB ("$MRS$".toList) s then pyReplace s ("$MRS$".toList) ("Mrs.".toList) else s
  let b := if pySubstrB ("$MR$".toList) a then pyReplace a ("$MR$".toList) ("Mr.".toList) else a
  if pySubstrB ("$ESQ$".toList) b then pyReplace b ("$ESQ$".toList) ("Esq.".toList) else b

/-- `ProjectGutenberg.get_autocomplete_sentences`: mask honorifics in
the punctuation-preserving view, split it into sentences, insert every
sentence into a fresh trie, then capitalize the first character of the
query (`start_of_sentence[0]` raises `IndexError` on an empty query,
modelled as `none`), conditionally mask the query (the `Esq.` branch
of the source, line 347, replaces `'Mr.'` rather than `'Esq.'`), run
the trie lookup and unmask every returned sentence. -/
def get_autocomplete_sentences (bookWithPunctuation : StrC) (start_of_sentence : StrC) :
    Option (List StrC) :=
  let masked := maskHonorifics bookWithPunctuation
  let sentences := splitSentences masked
  let trie := sentences.foldl (fun t s => t.insert s s) Trie.empty
  match start_of_sentence with
  | [] => none
  | c :: rest =>
    let s1 := pyUpperChar c :: rest
    let s2 := if pySubstrB ("Mrs.".toList) s1 then pyReplace s1 ("Mrs.".toList) ("$MRS$".toList) else s1
    let s3 := if pySubstrB ("Mr.".toList) s2 then pyReplace s2 ("Mr.".toList) ("$MR$".toList) else s2
    let s4 := if pySubstrB ("Esq.".toList) s3 then pyReplace s3 ("Mr.".toList) ("$MR$".toList) else s3
    some ((trie.autocompleteHelper s4).map unmaskSentence)

/-- The fields of the `ProjectGutenberg` session object that the query
operations can observe (set once by `__init__` via
`parse_book_txt_file`, `parse_common_words_txt_file` and
`populate_freqs`). -/
structure PGSession where
  book_parsed : StrC
  book_parsed_with_apostrophes_only : StrC
  book_parsed_with_punctuation : StrC
  book_parsed_without_matching : StrC
  common_words_parsed : List StrC
  chapters : Nat
  chapter_numbers_list : List StrC
  freqs : FreqTable

/-- Method form of `get_20_most_frequent_words`: the body reads
`self.freqs` and assigns no field of `self`. -/
def PGSession.most20 (st : PGSession) : PGSession × List (StrC × Nat) :=
  (st, get_20_most_frequent_words st.freqs)

/-- Method form of `get_20_most_interesting_frequent_words`: reads
`self.freqs` and `self.common_words_parsed`, assigns no field. -/
def PGSession.interesting20 (st : PGSession) : PGSession × List (StrC × Nat) :=
  (st, get_20_most_interesting_frequent_words st.freqs st.common_words_parsed)

/-- Method form of `get_20_least_frequent_words`: reads `self.freqs`
and `self.chapter_numbers_list`, assigns no field. -/
def PGSession.least20 (st : PGSession) : PGSession × List (StrC × Nat) :=
  (st, get_20_least_frequent_words st.freqs st.chapter_numbers_list)

/-- Method form of `get_frequency_of_word`: reads
`self.book_parsed_with_apostrophes_only` and `self.chapters`, assigns
no field. -/
def PGSession.frequencyOfWord (st : PGSession) (word : StrC) : PGSession × List Nat :=
  (st, get_frequency_of_word st.book_parsed_with_apostrophes_only st.chapters word)

/-- Method form of `get_chapter_quote_appears`: reads
`self.book_parsed_with_punctuation` and `self.chapters`, assigns no
field. -/
def PGSession.chapterQuoteAppears (st : PGSession) (quote : StrC) : PGSession × Int :=
  (st, get_chapter_quote_appears st.book_parsed_with_punctuation st.chapters quote)

/-- Method form of `get_autocomplete_sentences`: reads
`self.book_parsed_with_punctuation`; the trie and the rebound
`book_parsed_with_punctuation` are method locals, and no field of
`self` is assigned. -/
def PGSession.autocompleteSentences (st : PGSession) (s : StrC) :
    PGSession × Option (List StrC) :=
  (st, get_autocomplete_sentences st.book_parsed_with_punctuation s)

/-- C1: the claim "the total of all counts after the two-pass case
reconciliation equals the total before reconciliation (the
whitespace-token count of the apostrophes-only view)" fails on the
code.  For the one-token text `"1"`, the first reconciliation pass
executes `self.freqs['1'] += self.freqs.pop('1')` (the first character
of `'1'` is caseless, so the word and its "capitalized" form are the
same key, and both membership tests succeed), doubling the count: the
final total is 2 while the token count is 1. -/
theorem C1_sum_invariant_fails_on_caseless_token :
    (pySplitWs ("1".toList)).length = 1 ∧
    tableTotal (counter (pySplitWs ("1".toList))) = 1 ∧
    tableTotal (populate_freqs ("1".toList)) = 2 := by decide

/-- C2: the claim "applying the two-pass reconciliation twice yields
the same final table as applying it once, for every initial
token-count mapping" fails on the code: on the mapping `{"1": 1}` each
application doubles the count of `"1"` (once gives 2, twice gives 4). -/
theorem C2_reconciliation_not_idempotent :
    reconcile [("1".toList, 1)] = [("1".toList, 2)] ∧
    reconcile (reconcile [("1".toList, 1)]) = [("1".toList, 4)] ∧
    reconcile (reconcile [("1".toList, 1)]) ≠ reconcile [("1".toList, 1)] := by decide

/-- C5: the autocomplete prefix law fails on the code.  In the text
`"John Esq. waved. He left."` the sentence `"John $ESQ$ waved."` is
inserted into the trie (unmasking to `"John Esq. waved."`), but for the
prefix `"John Esq."` — the first 9 characters of that sentence — the
query-side masking never rewrites `Esq.` (the source's `Esq.` branch,
line 347, replaces `'Mr.'` instead of `'Esq.'`), so the trie walk fails
at the sentinel character and the empty sequence is returned instead of
a sequence containing the sentence. -/
theorem C5_autocomplete_misses_esq_sentence :
    splitSentences (maskHonorifics ("John Esq. waved. He left.".toList))
      = ["John $ESQ$ waved.".toList, "He left.".toList] ∧
    unmaskSentence ("John $ESQ$ waved.".toList) = "John Esq. waved.".toList ∧
    ("John Esq.".toList) = ("John Esq. waved.".toList).take 9 ∧
    get_autocomplete_sentences ("John Esq. waved. He left.".toList)
      ("John Esq.".toList) = some [] := by decide

/-- C8: in the output of the ranking operations, every token containing
`Mrs`, `Mr` or `Esq` as a substring has a literal `.` appended with its
count unchanged (the shared restoration pass is exactly that map), and
a selected table entry `("Mr", 5)` appears in the topK output as
`("Mr.", 5)`. -/
theorem C8_honorific_restoration :
    (∀ entries : List (StrC × Nat), appendHonorificDots entries
      = entries.map
        (fun p => (if hasHonorificB p.1 then p.1 ++ ".".toList else p.1, p.2))) ∧
    get_20_most_frequent_words [("Mr".toList, 5)] = [("Mr.".toList, 5)] := by
  constructor
  · intro entries
    induction entries with
    | nil => rfl
    | cons p rest ih => cases p; simp [appendHonorificDots, ih]
  · decide

/-- C10: every query operation leaves the session state unchanged: the
method bodies read fields of `self` but assign none, so the state
component of each method's outcome is the input state. -/
theorem C10_queries_preserve_state :
    ∀ (st : PGSession) (w q s : StrC),
      (st.most20).1 = st ∧ (st.interesting20).1 = st ∧ (st.least20).1 = st ∧
      (st.frequencyOfWord w).1 = st ∧ (st.chapterQuoteAppears q).1 = st ∧
      (st.autocompleteSentences s).1 = st := by
  intro st w q s
  exact ⟨rfl, rfl, rfl, rfl, rfl, rfl⟩

/-- Totality of the Python string comparison. -/
theorem pyStrLeB_total : ∀ a b : StrC, pyStrLeB a b = true ∨ pyStrLeB b a = true
  | [], _ => Or.inl rfl
  | _ :: _, [] => Or.inr rfl
  | a :: as, b :: bs => by
    rcases lt_trichotomy a b with h | h | h
    · left; simp [pyStrLeB, h]
    · subst h
      rcases pyStrLeB_total as bs with ih | ih
      · left; simp [pyStrLeB, ih]
      · right; simp [pyStrLeB, ih]
    · right; simp [pyStrLeB, h]

/-- Transitivity of the Python string comparison. -/
theorem pyStrLeB_trans :
    ∀ a b c : StrC, pyStrLeB a b = true → pyStrLeB b c = true → pyStrLeB a c = true
  | [], _, _, _, _ => rfl
  | _ :: _, [], _, h1, _ => by simp [pyStrLeB] at h1
  | _ :: _, _ :: _, [], _, h2 => by simp [pyStrLeB] at h2
  | a :: as, b :: bs, c :: cs, h1, h2 => by
    rcases lt_trichotomy a b with hab | hab | hab
    · rcases lt_trichotomy b c with hbc | hbc | hbc
      · simp [pyStrLeB, lt_trans hab hbc]
      · subst hbc; simp [pyStrLeB, hab]
      · simp [pyStrLeB, lt_asymm hbc, hbc] at h2
    · subst hab
      rcases lt_trichotomy a c with hac | hac | hac
      · simp [pyStrLeB, hac]
      · subst hac
        simp only [pyStrLeB, lt_irrefl, if_neg, if_false] at h1 h2 ⊢
        exact pyStrLeB_trans as bs cs h1 h2
      · simp [pyStrLeB, lt_asymm hac, hac] at h2
    · simp [pyStrLeB, lt_asymm hab, hab] at h1

instance : IsTotal (StrC × Nat) bottomLe := by
  constructor
  intro p q
  rcases Nat.lt_trichotomy p.2 q.2 with h | h | h
  · exact Or.inl (Or.inl h)
  · rcases pyStrLeB_total p.1 q.1 with hs | hs
    · exact Or.inl (Or.inr ⟨h, hs⟩)
    · exact Or.inr (Or.inr ⟨h.symm, hs⟩)
  · exact Or.inr (Or.inl h)

instance : IsTrans (StrC × Nat) bottomLe := by
  constructor
  intro p q r h1 h2
  rcases h1 with h1 | ⟨e1, s1⟩
  · rcases h2 with h2 | ⟨e2, s2⟩
    · exact Or.inl (lt_trans h1 h2)
    · exact Or.inl (e2 ▸ h1)
  · rcases h2 with h2 | ⟨e2, s2⟩
    · exact Or.inl (e1 ▸ h2)
    · exact Or.inr ⟨e1.trans e2, pyStrLeB_trans _ _ _ s1 s2⟩

/-- The shared honorific pass is a `map` over the entries. -/
theorem appendHonorificDots_eq_map (entries : List (StrC × Nat)) :
    appendHonorificDots entries
      = entries.map
        (fun p => (if hasHonorificB p.1 then p.1 ++ ".".toList else p.1, p.2)) := by
  induction entries with
  | nil => rfl
  | cons p rest ih => cases p; simp [appendHonorificDots, ih]

/-- C4: `get_20_least_frequent_words` consumes the table entries in
ascending-count order with ascending lexical order of token among equal
counts (the selection stage is sorted under `bottomLe`, the order of
the min-heap tuples `(freq, word)`), and on the table
`{"a": 1, "b": 1, "c": 2}` the 2 least frequent words are
`[("a", 1), ("b", 1)]`, never `("c", 2)`. -/
theorem C4_bottomK_tie_break :
    (∀ (freqs : FreqTable) (excluded : List StrC) (k : Nat),
      List.Sorted bottomLe (getKLeastSelect freqs excluded k)) ∧
    getKLeastFrequentWords [("a".toList, 1), ("b".toList, 1), ("c".toList, 2)] [] 2
      = [("a".toList, 1), ("b".toList, 1)] := by
  constructor
  · intro freqs excluded k
    have hs : List.Sorted bottomLe (List.insertionSort bottomLe freqs) :=
      List.sorted_insertionSort bottomLe freqs
    have hsub :
        (((List.insertionSort bottomLe freqs).filter
          (fun p => !excluded.contains p.1)).take k).Sublist
          (List.insertionSort bottomLe freqs) :=
      (List.take_sublist _ _).trans (List.filter_sublist _)
    exact List.Pairwise.sublist hsub hs
  · decide

/-- C9: for every frequency table, the generalized topK returns exactly
`min k m` entries where `m` is the number of table entries (the dict
keys are the distinct tokens), and the generalized bottomK returns
exactly `min k m'` entries where `m'` counts the entries whose token is
not in the exclusion list. -/
theorem C9_topk_bottomk_size_bound :
    (∀ (freqs : FreqTable) (k : Nat),
      (getKMostFrequentWords freqs k).length = min k freqs.length) ∧
    (∀ (freqs : FreqTable) (excluded : List StrC) (k : Nat),
      (getKLeastFrequentWords freqs excluded k).length
        = min k ((freqs.filter (fun p => !excluded.contains p.1)).length)) := by
  constructor
  · intro freqs k
    simp [getKMostFrequentWords, appendHonorificDots_eq_map, List.length_take,
      List.length_insertionSort]
  · intro freqs excluded k
    have hp : ((List.insertionSort bottomLe freqs).filter
        (fun p => !excluded.contains p.1)).length
        = (freqs.filter (fun p => !excluded.contains p.1)).length :=
      ((List.perm_insertionSort bottomLe freqs).filter _).length_eq
    simp only [getKLeastFrequentWords, getKLeastSelect, appendHonorificDots_eq_map,
      List.length_map, List.length_take, hp]

/-- C6 counterexample: the claim "no query operation ever raises an
exception for any input" fails: `get_autocomplete_sentences` applied to
an empty query evaluates `start_of_sentence[0]`, which raises an
`IndexError` (modelled as `none`; every other outcome of the function
is `some`). -/
theorem C6_counterexample_empty_query :
    get_autocomplete_sentences ("He left.".toList) ([] : StrC) = none := by rfl

/-- C6 amended: every query operation except autocomplete-on-an-empty-
query completes normally, with absent results represented as empty
sequences or the sentinel `-1`: autocomplete returns a value for every
non-empty query, and the chapter-of-quote lookup always returns either
`-1` or a chapter number in `[1, chapters]` (the ranking and per-chapter
counting operations are total functions of their inputs by
construction). -/
theorem C6_amended_queries_total_except_empty_query :
    (∀ (text q : StrC), q ≠ [] → (get_autocomplete_sentences text q).isSome = true) ∧
    (∀ (body : StrC) (chapters : Nat) (quote : StrC),
      get_chapter_quote_appears body chapters quote = -1 ∨
      (1 ≤ get_chapter_quote_appears body chapters quote ∧
        get_chapter_quote_appears body chapters quote ≤ (chapters : Int))) := by
  constructor
  · intro text q hq
    match q with
    | [] => exact absurd rfl hq
    | c :: rest => simp [get_autocomplete_sentences]
  · intro body chapters quote
    unfold get_chapter_quote_appears
    cases hf : (List.range' 1 chapters).find?
        (fun i => pySubstrB quote (quoteChapterSlice body chapters i)) with
    | none => exact Or.inl rfl
    | some i =>
      right
      have hmem : i ∈ List.range' 1 chapters := List.mem_of_find?_eq_some hf
      rw [List.mem_range'_1] at hmem
      simp only []
      constructor <;> omega

/-- Closed instance of the amended C6 statement at a concrete
non-empty query. -/
theorem C6_amended_witness :
    (get_autocomplete_sentences ("He left.".toList) ("H".toList)).isSome = true :=
  C6_amended_queries_total_except_empty_query.1 ("He left.".toList) ("H".toList)
    (by decide)

/-- C7 counterexample: the claim "loading the stop-word list with `n`
outside `0 ≤ n ≤ 1000` fails with an `InvalidRangeError`" fails on the
code: for `n = 1001` the method prints an error message and returns
normally without touching the stop-word list; no exception is raised. -/
theorem C7_counterexample_no_exception :
    parse_common_words_txt_file 1001 [] = ParseCommonOutcome.errorPrinted ∧
    parse_common_words_txt_file 1001 []
      ≠ ParseCommonOutcome.raised PyError.invalidRangeError := by decide

/-- C7 amended: a count outside `0 ≤ n ≤ 1000` is rejected by printing
an error message and returning with the stop-word list untouched (no
exception); a count within the bound returns the first `n` entries of
the ordered common-word list (provided the list holds at least `n`
entries, as the bundled 1000-word file does). -/
theorem C7_amended_range_check :
    ∀ (n : Int) (ws : List StrC),
      (¬ (0 ≤ n ∧ n ≤ 1000) →
        parse_common_words_txt_file n ws = ParseCommonOutcome.errorPrinted) ∧
      ((0 ≤ n ∧ n ≤ 1000) → n.toNat ≤ ws.length →
        parse_common_words_txt_file n ws = ParseCommonOutcome.parsed (ws.take n.toNat)) := by
  intro n ws
  constructor
  · intro h
    unfold parse_common_words_txt_file
    rw [if_pos]
    intro hc
    exact h ⟨hc.1, hc.2⟩
  · intro h hlen
    unfold parse_common_words_txt_file
    rw [if_neg, if_pos hlen]
    intro hc
    exact hc ⟨h.1, h.2⟩

/-- Closed instance of the amended C7 statement at concrete inputs on
both sides of the bound. -/
theorem C7_amended_witness :
    parse_common_words_txt_file (-1) [] = ParseCommonOutcome.errorPrinted ∧
    parse_common_words_txt_file 2 ["a".toList, "b".toList, "c".toList]
      = ParseCommonOutcome.parsed
        ((["a".toList, "b".toList, "c".toList]).take (Int.toNat 2)) :=
  ⟨(C7_amended_range_check (-1) []).1 (by decide),
   (C7_amended_range_check 2 ["a".toList, "b".toList, "c".toList]).2
     (by decide) (by decide)⟩

/-- A non-negative slice endpoint within the string is left as is. -/
theorem pyIdx_natCast (len i : Nat) (h : i ≤ len) : pyIdx len (i : Int) = i := by
  unfold pyIdx
  rw [if_neg (by omega)]
  simp [h]

/-- The endpoint `-1` denotes the position before the last character. -/
theorem pyIdx_neg_one (len : Nat) : pyIdx len (-1) = len - 1 := by
  unfold pyIdx
  rw [if_pos (by omega)]
  omega

/-- Glueing a clipped slice back onto the rest of the string. -/
theorem drop_take_append_drop (l : StrC) (a b : Nat) (h : a ≤ b) :
    (l.take b).drop a ++ l.drop b = l.drop a := by
  rw [List.drop_take]
  have h2 : l.drop b = (l.drop a).drop (b - a) := by
    rw [List.drop_drop]
    congr 1
    omega
  rw [h2, List.take_append_drop]

/-- Concatenating consecutive `[f i, f (i + 1))` slices of a string
recovers its suffix from `f a` on, provided the cut positions are
adjacent-monotone over the range. -/
theorem flatten_take_drop (l : StrC) (f : Nat → Nat) :
    ∀ (n a : Nat), (∀ j, a ≤ j → j + 1 ≤ a + n → f j ≤ f (j + 1)) →
    ((List.range' a n).map (fun i => (l.take (f (i + 1))).drop (f i))).flatten
      ++ l.drop (f (a + n)) = l.drop (f a)
  | 0, a, _ => by simp
  | n + 1, a, h => by
    rw [List.range'_succ, List.map_cons, List.flatten_cons, List.append_assoc]
    have ih := flatten_take_drop l f n (a + 1)
      (fun j hj hjn => h j (by omega) (by omega))
    rw [show a + (n + 1) = (a + 1) + n by omega, ih]
    exact drop_take_append_drop l (f a) (f (a + 1)) (h a (by omega) (by omega))

/-- C3 counterexample: the claim that the chapter spans computed by the
chapter lookup operations concatenate to the full body fails for the
spans of `get_frequency_of_word`: on the two-chapter body
`"Chapter 1 a Chapter 2 b"` the last chapter's stop marker
`'End of the Project Gutenberg EBook'` is absent (the parser stops
reading before it), `find` returns `-1`, and the slice
`book[start:-1]` drops the final character `'b'`. -/
theorem C3_counterexample_freq_spans :
    ((List.range' 1 2).map (freqChapterSlice ("Chapter 1 a Chapter 2 b".toList) 2)).flatten
        = "Chapter 1 a Chapter 2 ".toList ∧
    ((List.range' 1 2).map (freqChapterSlice ("Chapter 1 a Chapter 2 b".toList) 2)).flatten
        ≠ "Chapter 1 a Chapter 2 b".toList := by decide

/-- C3 amended: under well-placed chapter markers (marker `i` first
found at position `p i`, with `p 1 = 0`, positions adjacent-monotone
and the last marker inside the body) the spans of
`get_chapter_quote_appears` are non-degenerate and contiguous and their
concatenation equals the full body text, while the spans of
`get_frequency_of_word` concatenate to the body with its final
character removed (its last-chapter stop marker is never found, and the
resulting `-1` endpoint clips one character). -/
theorem C3_amended_span_structure (body : StrC) (N : Nat) (p : Nat → Nat)
    (hN : 1 ≤ N)
    (hfind : ∀ i, 1 ≤ i → i ≤ N → pyFind body (chapterMarker i) = (p i : Int))
    (hmono : ∀ i, 1 ≤ i → i + 1 ≤ N → p i ≤ p (i + 1))
    (h1 : p 1 = 0)
    (hlast : p N < body.length)
    (hend : pyFind body endMarker = -1) :
    (∀ i, 1 ≤ i → i ≤ N → quoteSpanStart body i ≤ quoteSpanEnd body N i) ∧
    (∀ i, 1 ≤ i → i + 1 ≤ N → quoteSpanEnd body N i = quoteSpanStart body (i + 1)) ∧
    ((List.range' 1 N).map (quoteChapterSlice body N)).flatten = body ∧
    ((List.range' 1 N).map (freqChapterSlice body N)).flatten = body.dropLast := by
  have hchain : ∀ j, 1 ≤ j → j ≤ N → ∀ i, 1 ≤ i → i ≤ j → p i ≤ p j := by
    intro j
    induction j with
    | zero => omega
    | succ n ih =>
      intro h1j hjN i h1i hij
      rcases Nat.eq_or_lt_of_le hij with he | hlt
      · exact he ▸ le_refl _
      · have h1n : 1 ≤ n := by omega
        calc p i ≤ p n := ih h1n (by omega) i h1i (by omega)
          _ ≤ p (n + 1) := hmono n h1n (by omega)
  have hplen : ∀ i, 1 ≤ i → i ≤ N → p i < body.length := fun i hi hiN =>
    lt_of_le_of_lt (hchain N hN (le_refl N) i hi hiN) hlast
  have hstart : ∀ i, 1 ≤ i → i ≤ N → quoteSpanStart body i = p i := by
    intro i hi hiN
    unfold quoteSpanStart
    rw [hfind i hi hiN, pyIdx_natCast _ _ (le_of_lt (hplen i hi hiN))]
  have hendv : ∀ i, 1 ≤ i → i + 1 ≤ N → quoteSpanEnd body N i = p (i + 1) := by
    intro i hi hiN
    unfold quoteSpanEnd
    rw [if_neg (by omega), hfind (i + 1) (by omega) hiN,
      pyIdx_natCast _ _ (le_of_lt (hplen (i + 1) (by omega) hiN))]
  have hqslice : ∀ i, 1 ≤ i → i + 1 ≤ N →
      quoteChapterSlice body N i = (body.take (p (i + 1))).drop (p i) := by
    intro i hi hiN
    simp only [quoteChapterSlice, pySlice, if_neg (show ¬ i = N by omega)]
    rw [hfind i hi (by omega), hfind (i + 1) (by omega) hiN,
      pyIdx_natCast _ _ (le_of_lt (hplen i hi (by omega))),
      pyIdx_natCast _ _ (le_of_lt (hplen (i + 1) (by omega) hiN))]
  have hqlast : quoteChapterSlice body N N = body.drop (p N) := by
    simp only [quoteChapterSlice, pySliceGe, eq_self_iff_true, if_true]
    rw [hfind N hN (le_refl N), pyIdx_natCast _ _ (le_of_lt hlast)]
  have hfslice : ∀ i, 1 ≤ i → i + 1 ≤ N →
      freqChapterSlice body N i
        = ((body.take (body.length - 1)).take (p (i + 1))).drop (p i) := by
    intro i hi hiN
    have hle : p (i + 1) ≤ body.length - 1 := by
      have := hplen (i + 1) (by omega) hiN
      omega
    simp only [freqChapterSlice, pySlice, if_neg (show ¬ i = N by omega)]
    rw [hfind i hi (by omega), hfind (i + 1) (by omega) hiN,
      pyIdx_natCast _ _ (le_of_lt (hplen i hi (by omega))),
      pyIdx_natCast _ _ (le_of_lt (hplen (i + 1) (by omega) hiN)),
      List.take_take, min_eq_left hle]
  have hflast : freqChapterSlice body N N
      = (body.take (body.length - 1)).drop (p N) := by
    simp only [freqChapterSlice, pySlice, eq_self_iff_true, if_true]
    rw [hfind N hN (le_refl N), hend, pyIdx_natCast _ _ (le_of_lt hlast),
      pyIdx_neg_one]
  have hsplit : List.range' 1 N = List.range' 1 (N - 1) ++ [N] := by
    conv_lhs => rw [show N = (N - 1) + 1 by omega]
    rw [List.range'_concat]
    congr 2
    omega
  constructor
  · intro i hi hiN
    rcases Nat.eq_or_lt_of_le hiN with he | hlt
    · subst he
      rw [hstart i hi (le_refl i)]
      unfold quoteSpanEnd
      rw [if_pos rfl]
      exact le_of_lt hlast
    · rw [hstart i hi hiN, hendv i hi hlt]
      exact hmono i hi hlt
  refine ⟨fun i hi hiN => by rw [hendv i hi hiN, hstart (i + 1) (by omega) hiN], ?_, ?_⟩
  · rw [hsplit, List.map_append, List.map_congr_left
      (fun i hi => hqslice i (List.mem_range'_1.mp hi).1
        (by have := (List.mem_range'_1.mp hi).2; omega)),
      List.flatten_append, List.map_cons, List.map_nil, hqlast,
      List.flatten_cons, List.flatten_nil, List.append_nil]
    have hft := flatten_take_drop body p (N - 1) 1
      (fun j hj hjn => hmono j hj (by omega))
    rw [show 1 + (N - 1) = N by omega] at hft
    rw [hft, h1, List.drop_zero]
  · rw [hsplit, List.map_append, List.map_congr_left
      (fun i hi => hfslice i (List.mem_range'_1.mp hi).1
        (by have := (List.mem_range'_1.mp hi).2; omega)),
      List.flatten_append, List.map_cons, List.map_nil, hflast,
      List.flatten_cons, List.flatten_nil, List.append_nil]
    have hft := flatten_take_drop (body.take (body.length - 1)) p (N - 1) 1
      (fun j hj hjn => hmono j hj (by omega))
    rw [show 1 + (N - 1) = N by omega] at hft
    rw [hft, h1, List.drop_zero, List.dropLast_eq_take]

/-- Closed instance of the amended C3 statement on a concrete
two-chapter body: the quote-lookup spans concatenate to the body, the
word-frequency spans to the body without its last character. -/
theorem C3_amended_witness :
    ((List.range' 1 2).map (quoteChapterSlice ("Chapter 1 a Chapter 2 b".toList) 2)).flatten
      = "Chapter 1 a Chapter 2 b".toList ∧
    ((List.range' 1 2).map (freqChapterSlice ("Chapter 1 a Chapter 2 b".toList) 2)).flatten
      = ("Chapter 1 a Chapter 2 b".toList).dropLast :=
  have h := C3_amended_span_structure ("Chapter 1 a Chapter 2 b".toList) 2
    (fun i => if i = 1 then 0 else 12) (by decide)
    (by intro i h1 h2; interval_cases i <;> decide)
    (by intro i h1 h2; have hi : i = 1 := (by omega); rw [hi]; decide)
    (by decide) (by decide) (by decide)
  ⟨h.2.2.1, h.2.2.2⟩
